import Mathlib

/-!
Verification of the image-scraper-tools repository: a shallow embedding of the
crawl / extract / download pipeline of `website_image_crawler.py` and the
download path of `image_scraper.py`, with theorems settling the frozen claims
about the scheduler invariants, the download manager's format policy, filename
sanitization and collision resolution.

External collaborators (the network transport, the BeautifulSoup HTML parser,
wall-clock time, `random`, and Python's `hash`) are modelled as explicit
oracle parameters; everything downstream of those boundaries is translated
from the source.  Python standard-library string/path helpers (`os.path`,
`urllib.parse`) are modelled by executable Lean functions on `List Char`.
-/

namespace ImageScraperTools

/-! ### Basic string helpers (models of Python str operations) -/

/-- Model of Python `str.lower` for ASCII characters. -/
def charLower (c : Char) : Char :=
  if 'A' ≤ c ∧ c ≤ 'Z' then Char.ofNat (c.toNat + 32) else c

/-- Model of Python `str.lower` on a whole string. -/
def strLower (s : String) : String :=
  String.mk (s.data.map charLower)

/-- Model of Python `str.startswith`. -/
def strStartsWith (s pre : String) : Bool :=
  pre.data.isPrefixOf s.data

/-- Model of Python `str.endswith`. -/
def strEndsWith (s suf : String) : Bool :=
  suf.data.reverse.isPrefixOf s.data.reverse

/-- Sublist containment: `needle` occurs contiguously inside `hay`. -/
def subListIn (needle : List Char) : List Char → Bool
  | [] => needle.isEmpty
  | c :: t => needle.isPrefixOf (c :: t) || subListIn needle t

/-- Model of Python's substring containment test `needle in haystack`. -/
def substrIn (needle hay : String) : Bool :=
  subListIn needle.data hay.data

/-- Split a character list at the first occurrence of the pattern `pat`,
returning the part before it and the part after it (pattern removed). -/
def splitFirst (pat : List Char) : List Char → Option (List Char × List Char)
  | [] => if pat = [] then some ([], []) else none
  | c :: rest =>
    if pat.isPrefixOf (c :: rest) then some ([], (c :: rest).drop pat.length)
    else
      match splitFirst pat rest with
      | some (a, b) => some (c :: a, b)
      | none => none

/-- Set-style union on lists, modelling Python `set.update`: elements of `b`
not already present are appended, preserving first-insertion order. -/
def sunion (a b : List String) : List String :=
  b.foldl (fun acc x => if x ∈ acc then acc else acc ++ [x]) a

/-! ### Decimal rendering (model of Python `str(n)` for a natural number) -/

/-- Fuel-driven accumulation of decimal digit characters, most significant
first.  The fuel is an upper bound on the number of digits; `n` itself is
always enough. -/
def decCharsAux : Nat → Nat → List Char
  | 0, _ => []
  | f + 1, n => if n = 0 then [] else decCharsAux f (n / 10) ++ [Nat.digitChar (n % 10)]

/-- Decimal digit characters of `n`, modelling Python `str(n)`. -/
def decChars (n : Nat) : List Char :=
  if n = 0 then ['0'] else decCharsAux n n

/-- Model of Python `str(n)` / f-string formatting for a natural number. -/
def decStr (n : Nat) : String :=
  String.mk (decChars n)

theorem decCharsAux_eq_digits (f : Nat) : ∀ n : Nat, n ≤ f →
    decCharsAux f n = ((Nat.digits 10 n).map Nat.digitChar).reverse := by
  induction f with
  | zero =>
    intro n hn
    interval_cases n
    simp [decCharsAux]
  | succ f ih =>
    intro n hn
    by_cases h0 : n = 0
    · simp [decCharsAux, h0]
    · have hrec : n / 10 ≤ f := by
        have : n / 10 < n := Nat.div_lt_self (Nat.pos_of_ne_zero h0) (by omega)
        omega
      rw [Nat.digits_def' (by omega : (1:Nat) < 10) (Nat.pos_of_ne_zero h0)]
      simp [decCharsAux, h0, ih _ hrec]

theorem decChars_eq_digits (n : Nat) (h : n ≠ 0) :
    decChars n = ((Nat.digits 10 n).map Nat.digitChar).reverse := by
  simp [decChars, h, decCharsAux_eq_digits n n le_rfl]

theorem digitChar_inj_lt_ten : ∀ d < 10, ∀ e < 10, Nat.digitChar d = Nat.digitChar e → d = e := by
  decide

theorem map_digitChar_inj : ∀ l₁ l₂ : List Nat, (∀ d ∈ l₁, d < 10) → (∀ d ∈ l₂, d < 10) →
    l₁.map Nat.digitChar = l₂.map Nat.digitChar → l₁ = l₂ := by
  intro l₁
  induction l₁ with
  | nil =>
    intro l₂ _ _ h
    cases l₂ with
    | nil => rfl
    | cons b t => simp at h
  | cons a t ih =>
    intro l₂ h₁ h₂ h
    cases l₂ with
    | nil => simp at h
    | cons b t₂ =>
      simp only [List.map_cons, List.cons.injEq] at h
      have hab : a = b :=
        digitChar_inj_lt_ten a (h₁ a (by simp)) b (h₂ b (by simp)) h.1
      have ht : t = t₂ :=
        ih t₂ (fun d hd => h₁ d (by simp [hd])) (fun d hd => h₂ d (by simp [hd])) h.2
      rw [hab, ht]

theorem decChars_ne_zero_char (n : Nat) (h : n ≠ 0) : decChars n ≠ ['0'] := by
  intro heq
  rw [decChars_eq_digits n h] at heq
  have : (Nat.digits 10 n).map Nat.digitChar = ['0'] := by
    have := congrArg List.reverse heq
    simpa using this
  have hd : Nat.digits 10 n = [0] := by
    apply map_digitChar_inj
    · exact fun d hd => Nat.digits_lt_base (by omega) hd
    · intro d hd; simp at hd; omega
    · simpa using this
  have := Nat.ofDigits_digits 10 n
  rw [hd] at this
  simp [Nat.ofDigits] at this
  omega

theorem decChars_injective : Function.Injective decChars := by
  intro n m h
  by_cases hn : n = 0
  · by_cases hm : m = 0
    · omega
    · exfalso
      exact decChars_ne_zero_char m hm (by rw [← h, hn]; simp [decChars])
  · by_cases hm : m = 0
    · exfalso
      exact decChars_ne_zero_char n hn (by rw [h, hm]; simp [decChars])
    · rw [decChars_eq_digits n hn, decChars_eq_digits m hm] at h
      have h' : (Nat.digits 10 n).map Nat.digitChar = (Nat.digits 10 m).map Nat.digitChar :=
        List.reverse_injective h
      have hd : Nat.digits 10 n = Nat.digits 10 m :=
        map_digitChar_inj _ _ (fun d hd => Nat.digits_lt_base (by omega) hd)
          (fun d hd => Nat.digits_lt_base (by omega) hd) h'
      exact Nat.digits_inj_iff.mp hd

theorem decStr_injective : Function.Injective decStr := by
  intro n m h
  have h2 : (decStr n).data = (decStr m).data := congrArg String.data h
  simp only [decStr] at h2
  exact decChars_injective h2

theorem decChars_digits_only (n : Nat) : ∀ c ∈ decChars n, c.isDigit = true := by
  by_cases hn : n = 0
  · subst hn
    decide
  · rw [decChars_eq_digits n hn]
    intro c hc
    simp only [List.mem_reverse, List.mem_map] at hc
    obtain ⟨d, hd, rfl⟩ := hc
    have hlt : d < 10 := Nat.digits_lt_base (by omega) hd
    interval_cases d <;> decide

/-! ### URL helpers (models of `urllib.parse` for http(s) URLs) -/

/-- Model of `urllib.parse.urlparse(url).path` for http(s) URLs: strip the
fragment, the query, and the `scheme://netloc` part. -/
def urlparse_path (url : String) : String :=
  let l := url.data.takeWhile (fun c => c ≠ '#')
  let l := l.takeWhile (fun c => c ≠ '?')
  match splitFirst "://".data l with
  | none => String.mk l
  | some (_, after) => String.mk (after.dropWhile (fun c => c ≠ '/'))

/-- Model of `urllib.parse.urlparse(url).netloc` for http(s) URLs. -/
def url_netloc (url : String) : String :=
  match splitFirst "://".data url.data with
  | none => ""
  | some (_, after) =>
    String.mk (after.takeWhile (fun c => c ≠ '/' ∧ c ≠ '?' ∧ c ≠ '#'))

/-- Scheme of a URL (the part before the first colon). -/
def url_scheme (url : String) : String :=
  String.mk (url.data.takeWhile (fun c => c ≠ ':'))

/-- Directory part of a URL path: everything up to and including the last
slash; defaults to the root when the path has no slash. -/
def urlPathDir (p : String) : String :=
  let d := String.mk (p.data.reverse.dropWhile (fun c => c ≠ '/')).reverse
  if d = "" then "/" else d

/-- Model of `urllib.parse.urljoin(base, url)` covering absolute references,
scheme-relative and root-relative references, and plain relative references
(dot-segment normalization is not modelled; the crawler's behaviour on the
claims at hand does not depend on it). -/
def urljoin (base url : String) : String :=
  if strStartsWith url "http://" || strStartsWith url "https://" then url
  else if strStartsWith url "//" then url_scheme base ++ ":" ++ url
  else if strStartsWith url "/" then url_scheme base ++ "://" ++ url_netloc base ++ url
  else if url = "" then base
  else url_scheme base ++ "://" ++ url_netloc base ++ urlPathDir (urlparse_path base) ++ url

/-- Hex digit value, for percent-decoding. -/
def hexVal (c : Char) : Option Nat :=
  if '0' ≤ c ∧ c ≤ '9' then some (c.toNat - 48)
  else if 'a' ≤ c ∧ c ≤ 'f' then some (c.toNat - 87)
  else if 'A' ≤ c ∧ c ≤ 'F' then some (c.toNat - 55)
  else none

/-- Fuel-driven percent-decoding worker. -/
def unquoteGo : Nat → List Char → List Char
  | 0, l => l
  | _ + 1, [] => []
  | f + 1, c :: rest =>
    if c = '%' then
      match rest with
      | a :: b :: rest2 =>
        match hexVal a, hexVal b with
        | some x, some y => Char.ofNat (16 * x + y) :: unquoteGo f rest2
        | _, _ => '%' :: unquoteGo f rest
      | _ => '%' :: unquoteGo f rest
    else c :: unquoteGo f rest

/-- Model of `urllib.parse.unquote` at the byte level: `%XX` pairs are
decoded to single characters (multi-byte UTF-8 sequences are not recombined,
which is faithful for the ASCII names the crawler deals with). -/
def unquote (s : String) : String :=
  String.mk (unquoteGo s.data.length s.data)

/-! ### Path helpers (models of `os.path` on posix) -/

/-- Model of `os.path.join(a, b)` for posix paths. -/
def pathJoin (a b : String) : String :=
  if strStartsWith b "/" then b
  else if a = "" then b
  else if strEndsWith a "/" then a ++ b
  else a ++ "/" ++ b

/-- Model of `os.path.basename`: the part after the last slash. -/
def pathBasename (p : String) : String :=
  String.mk (p.data.reverse.takeWhile (fun c => c ≠ '/')).reverse

/-- Index of the last occurrence of `c` in `l`, if any. -/
def lastIdxOf (c : Char) (l : List Char) : Option Nat :=
  match l.reverse.findIdx? (fun x => x = c) with
  | none => none
  | some i => some (l.length - 1 - i)

/-- Model of `os.path.splitext` on posix paths, as character lists: the
extension starts at the last dot of the final path component, unless every
character of the component before that dot is itself a dot (leading dots do
not start an extension). -/
def splitextList (p : List Char) : List Char × List Char :=
  let bstart : Nat :=
    match lastIdxOf '/' p with
    | none => 0
    | some i => i + 1
  match lastIdxOf '.' p with
  | none => (p, [])
  | some d =>
    if bstart ≤ d ∧ ¬((p.drop bstart).take (d - bstart)).all (fun c => c = '.')
    then (p.take d, p.drop d)
    else (p, [])

/-- String version of `os.path.splitext`. -/
def splitext (p : String) : String × String :=
  let r := splitextList p.data
  (String.mk r.1, String.mk r.2)

/-- Model of Python `str.strip('. ')`: remove leading and trailing dots and
spaces. -/
def stripDotsSpaces (l : List Char) : List Char :=
  ((l.dropWhile (fun c => c = '.' ∨ c = ' ')).reverse.dropWhile
    (fun c => c = '.' ∨ c = ' ')).reverse

/-! ### `WebsiteImageCrawler` filename and format helpers -/

/-- Extensions recognized by `WebsiteImageCrawler._get_extension_from_url`. -/
def recognizedUrlExts : List String :=
  ["jpg", "jpeg", "png", "gif", "webp", "bmp", "svg", "tiff"]

/-- The raw URL-path extension: `os.path.splitext(path)[1].lower().replace('.', '')`. -/
def urlExtRaw (url : String) : String :=
  String.mk ((strLower (splitext (urlparse_path url)).2).data.filter (fun c => c ≠ '.'))

/-- Model of `WebsiteImageCrawler._get_extension_from_url`: the lower-cased extension
of the URL's path without its dot, defaulting to `jpg` when the extension is
not in the recognized list. -/
def get_extension_from_url (url : String) : String :=
  if urlExtRaw url ∈ recognizedUrlExts then urlExtRaw url else "jpg"

/-- MIME-type table of `_get_extension_from_content_type` (identical in both
source files), in insertion order. -/
def mime_map : List (String × String) :=
  [("image/jpeg", "jpg"), ("image/jpg", "jpg"), ("image/png", "png"),
   ("image/gif", "gif"), ("image/bmp", "bmp"), ("image/webp", "webp"),
   ("image/tiff", "tiff"), ("image/svg+xml", "svg")]

/-- Model of `_get_extension_from_content_type` (identical in both source files):
exact MIME match, then prefix match, then generic substring patterns, then
the `jpg` default. -/
def get_extension_from_content_type (content_type : String) : String :=
  let ct := strLower content_type
  match mime_map.find? (fun p => p.1 = ct) with
  | some p => p.2
  | none =>
    match mime_map.find? (fun p => strStartsWith ct p.1) with
    | some p => p.2
    | none =>
      if substrIn "jpeg" ct || substrIn "jpg" ct then "jpg"
      else if substrIn "png" ct then "png"
      else if substrIn "gif" ct then "gif"
      else if substrIn "webp" ct then "webp"
      else "jpg"

/-- The per-format content-type match of `WebsiteImageCrawler.download_image`
(lines 597-604): a format matches when it is `jpg`/`jpeg` and `jpeg` occurs
in the content type, or when the format itself occurs in the content type. -/
def content_format_matched (formats : List String) (content_type : String) : Bool :=
  formats.any (fun fmt =>
    (decide (strLower fmt ∈ ["jpg", "jpeg"]) && substrIn "jpeg" content_type) ||
      substrIn (strLower fmt) content_type)

/-- The URL-extension side of the dual format check (lines 592-594). -/
def url_format_matched (formats : List String) (url : String) : Bool :=
  decide (strLower (get_extension_from_url url) ∈ formats)

/-- Python truthiness of the optional `formats` argument: `None` and the
empty list are both falsy. -/
def truthyFormats : Option (List String) → Bool
  | none => false
  | some l => !l.isEmpty

/-- Single-quote character (kept as a named constant). -/
def squote : Char := Char.ofNat 39

/-- Model of the quoted-filename regex search of
`WebsiteImageCrawler._get_filename` over a Content-Disposition value: the
name after `filename=`, an optional leading quote stripped, read up to the
next quote or semicolon. -/
def parse_disposition (s : String) : Option String :=
  match splitFirst "filename=".data s.data with
  | none => none
  | some (_, after) =>
    let t :=
      match after with
      | c :: tl => if c = squote ∨ c = '"' then tl else after
      | [] => []
    let m := t.takeWhile (fun c => ¬(c = squote ∨ c = '"' ∨ c = ';'))
    if m.isEmpty then none else some (String.mk m)

/-- Model of `WebsiteImageCrawler._get_filename`: prefer the Content-Disposition
name, else the percent-decoded basename of the URL path when it contains a
dot, else a generated `image_<hash>.<ext>` name.  `urlHash` stands for
Python's `abs(hash(url)) % 10000`, an external source of nondeterminism. -/
def get_filename (url : String) (disposition : Option String) (urlHash : Nat) : String :=
  match disposition.bind parse_disposition with
  | some f => f
  | none =>
    let filename := unquote (pathBasename (urlparse_path url))
    if filename ≠ "" ∧ filename.data.contains '.' then filename
    else "image_" ++ decStr (urlHash % 10000) ++ "." ++ get_extension_from_url url

/-- The characters replaced by `_sanitize_filename` (identical in both
source files). -/
def invalidChars : List Char :=
  ['<', '>', ':', '"', '/', '\\', '|', '?', '*']

/-- Model of `_sanitize_filename` (identical in both source files): replace invalid
characters by underscores, cap the length at 150 by truncating the stem to
140 characters, strip surrounding dots and spaces, and fall back to a
generated `image_<timestamp>_<rand>.jpg` name when nothing is left.  `ts`
and `rnd` stand for `int(time.time())` and `random.randint(1000, 9999)`. -/
def sanitize_filename (ts rnd : Nat) (filename : String) : String :=
  let l := filename.data.map (fun c => if c ∈ invalidChars then '_' else c)
  let l :=
    if 150 < l.length then
      let r := splitextList l
      r.1.take 140 ++ r.2
    else l
  let l := stripDotsSpaces l
  if l.isEmpty ∨ l = ['.'] then
    "image_" ++ decStr ts ++ "_" ++ decStr rnd ++ ".jpg"
  else String.mk l

/-- Candidate path tried by the duplicate-filename loop at counter `c`. -/
def collideCand (dir base ext : String) (c : Nat) : String :=
  pathJoin dir (base ++ "_" ++ decStr c ++ ext)

/-- The `while os.path.exists(save_path)` loop of
`WebsiteImageCrawler.download_image` (lines 650-655), with explicit fuel;
`fs` is the set of paths that currently exist on disk. -/
def collideLoop (fs : List String) (dir base ext : String) :
    Nat → Nat → String → String
  | fuel, counter, p =>
    if p ∈ fs then
      match fuel with
      | 0 => p
      | f + 1 => collideLoop fs dir base ext f (counter + 1) (collideCand dir base ext counter)
    else p

/-- Collision resolution of `WebsiteImageCrawler.download_image`: starting
from `dir/filename`, append `_1`, `_2`, ... to the stem until the path does
not exist.  `fs.length + 1` units of fuel always suffice (pigeonhole), so
this total function computes exactly what the source's while loop does. -/
def resolve_collision (fs : List String) (dir filename : String) : String :=
  let r := splitext filename
  collideLoop fs dir r.1 r.2 (fs.length + 1) 1 (pathJoin dir filename)

/-- The format filter applied by `WebsiteImageCrawler._extract_images`
(lines 451-457) to the pre-filtered candidate URLs. -/
def extract_format_filter (formats : List String) (urls : List String) : List String :=
  urls.filter (fun u => decide (get_extension_from_url u ∈ formats))

/-! ### Download models

The network is an external collaborator; a download's observable inputs are
collected in `HttpResp`.  The filesystem is modelled as an association list
from paths to byte sizes.  `failAfter = some k` models an I/O error raised
after `k` chunks have been written; `none` models a write that completes. -/

structure HttpResp where
  headContentType : String
  getContentType : String
  disposition : Option String
  chunks : List (List Nat)
  failAfter : Option Nat

/-- Paths currently existing on disk. -/
def fsPaths (fs : List (String × Nat)) : List String :=
  fs.map (fun e => e.1)

/-- Writing a file (creating or overwriting). -/
def fsWrite (p : String) (size : Nat) (fs : List (String × Nat)) : List (String × Nat) :=
  (p, size) :: fs.filter (fun e => decide (e.1 ≠ p))

/-- Model of `os.remove`. -/
def fsRemove (p : String) (fs : List (String × Nat)) : List (String × Nat) :=
  fs.filter (fun e => decide (e.1 ≠ p))

/-- Outcome of one `download_image` attempt: a normal return (`done`) exits
the retry loop; `ioErr` models an exception caught by the retry handler. -/
inductive AttemptOut
  | done (result : Option String)
  | ioErr
deriving DecidableEq, Repr

/-- The non-image content-type rejection of the core crawler (line 586). -/
def wic_content_type_ok (headCT : String) : Bool :=
  strStartsWith (strLower headCT) "image/"

/-- The dual format gate of `WebsiteImageCrawler.download_image` (lines
590-610): with a truthy format filter, accept only when the URL extension or
the declared content type matches. -/
def wic_format_gate (formats : Option (List String)) (url headCT : String) : Bool :=
  !truthyFormats formats ||
    (url_format_matched (formats.getD []) url ||
      content_format_matched (formats.getD []) (strLower headCT))

/-- Save-extension resolution of `WebsiteImageCrawler.download_image` (lines
616-633); the second component is whether the format-mismatch warning is
logged. -/
def wic_resolve_extension (formats : Option (List String)) (url getCT : String) :
    String × Bool :=
  let content_type := strLower getCT
  let content_type_extension := get_extension_from_content_type content_type
  let url_extension := get_extension_from_url url
  if truthyFormats formats ∧ url_extension ∈ formats.getD [] then
    (url_extension, content_type_extension != "" && content_type_extension != url_extension)
  else if content_type_extension ≠ "" then (content_type_extension, false)
  else (url_extension, false)

/-- Filename resolution of `WebsiteImageCrawler.download_image` (lines
635-644): base name, extension rewrite, sanitization. -/
def wic_resolve_filename (url : String) (disposition : Option String)
    (urlHash ts rnd : Nat) (extension : String) : String :=
  let filename := get_filename url disposition urlHash
  let filename :=
    if extension ≠ "" then (splitext filename).1 ++ "." ++ extension else filename
  sanitize_filename ts rnd filename

/-- The collision-free save path chosen by the core crawler. -/
def wic_save_path (fs : List (String × Nat)) (saveDir filename : String) : String :=
  resolve_collision (fsPaths fs) saveDir filename

/-- One attempt of `WebsiteImageCrawler.download_image` (lines 573-664):
content-type probe, dual format gate, extension and filename resolution,
collision resolution, then the streaming write.  Note the source has no
empty-body check and no partial-file cleanup: a completed write of any size
(zero included) returns the path, and a failed write leaves the partial file
in `fs` and raises (modelled as `ioErr`). -/
def wic_attempt (saveDir url : String) (formats : Option (List String))
    (resp : HttpResp) (urlHash ts rnd : Nat) (fs : List (String × Nat)) :
    AttemptOut × List (String × Nat) × Bool :=
  if ¬ wic_content_type_ok resp.headContentType then (.done none, fs, false)
  else if truthyFormats formats ∧ ¬ wic_format_gate formats url resp.headContentType then
    (.done none, fs, false)
  else
    let r := wic_resolve_extension formats url resp.getContentType
    let filename := wic_resolve_filename url resp.disposition urlHash ts rnd r.1
    let save_path := wic_save_path fs saveDir filename
    match resp.failAfter with
    | none =>
      let size := (resp.chunks.map List.length).sum
      (.done (some save_path), fsWrite save_path size fs, r.2)
    | some k =>
      let written := ((resp.chunks.take k).map List.length).sum
      (.ioErr, fsWrite save_path written fs, r.2)

/-- The retry loop of `WebsiteImageCrawler.download_image` (`retries = 2`,
so three attempts); an exception on the last attempt yields `none`. -/
def wic_download_go (saveDir url : String) (formats : Option (List String))
    (resp : HttpResp) (urlHash ts rnd : Nat) :
    Nat → List (String × Nat) → Option String × List (String × Nat)
  | 0, fs => (none, fs)
  | n + 1, fs =>
    let o := wic_attempt saveDir url formats resp urlHash ts rnd fs
    match o.1 with
    | .done p => (p, o.2.1)
    | .ioErr =>
      match n with
      | 0 => (none, o.2.1)
      | m + 1 => wic_download_go saveDir url formats resp urlHash ts rnd (m + 1) o.2.1

/-- Model of `WebsiteImageCrawler.download_image`: three attempts over the same
response oracle. -/
def wic_download_image (saveDir url : String) (formats : Option (List String))
    (resp : HttpResp) (urlHash ts rnd : Nat) (fs : List (String × Nat)) :
    Option String × List (String × Nat) :=
  wic_download_go saveDir url formats resp urlHash ts rnd 3 fs

/-- Model of the `filename="?([^"]+)"?` regex of
`ImageScraper._get_filename`. -/
def is_parse_disposition (s : String) : Option String :=
  match splitFirst "filename=".data s.data with
  | none => none
  | some (_, after) =>
    let t :=
      match after with
      | c :: tl => if c = '"' then tl else after
      | [] => []
    let m := t.takeWhile (fun c => c ≠ '"')
    if m.isEmpty then none else some (String.mk m)

/-- Model of `ImageScraper._get_filename`: Content-Disposition name, else the URL
basename when it has a dot, else a generated timestamped name whose
extension comes from the content type. -/
def is_get_filename (url : String) (disposition : Option String) (getCT : String)
    (ts rnd : Nat) : String :=
  match disposition.bind is_parse_disposition with
  | some f => f
  | none =>
    let filename := pathBasename (urlparse_path url)
    if filename ≠ "" ∧ filename.data.contains '.' then filename
    else
      let content_type := strLower getCT
      let extension :=
        if substrIn "image/png" content_type then "png"
        else if substrIn "image/jpeg" content_type then "jpg"
        else if substrIn "image/gif" content_type then "gif"
        else if substrIn "image/webp" content_type then "webp"
        else "jpg"
      "image_" ++ decStr ts ++ "_" ++ decStr rnd ++ "." ++ extension

/-- Model of `ImageScraper._guess_extension`: like the crawler's URL-extension
helper but with a smaller recognized list. -/
def guess_extension (url : String) : String :=
  if urlExtRaw url ∈ ["jpg", "jpeg", "png", "gif", "webp", "bmp"] then urlExtRaw url else "jpg"

/-- Model of `ImageScraper.download_image` (lines 339-424), one pass through the
body of the retry loop.  `rand2` stands for the `random.randint(1, 999)`
duplicate suffix.  Disk errors (`failAfter = some k`) fall into the generic
`except Exception` branch: the function returns `None` immediately and the
partial file stays on disk.  A completed write of zero bytes removes the
file and returns `None` (lines 417-421). -/
def is_download_image (saveDir url : String) (formats : Option (List String))
    (resp : HttpResp) (ts rnd rand2 : Nat) (fs : List (String × Nat)) :
    Option String × List (String × Nat) :=
  let content_type := strLower resp.headContentType
  if ¬ strStartsWith content_type "image/" then (none, fs)
  else if truthyFormats formats ∧ ¬ content_format_matched (formats.getD []) content_type then
    (none, fs)
  else
    let getCT := strLower resp.getContentType
    let extension0 := get_extension_from_content_type getCT
    let extension := if extension0 = "" then guess_extension url else extension0
    let filename0 := is_get_filename url resp.disposition resp.getContentType ts rnd
    let filename1 :=
      if extension ≠ "" then (splitext filename0).1 ++ "." ++ extension else filename0
    let filename2 := sanitize_filename ts rnd filename1
    let save_path0 := pathJoin saveDir filename2
    let save_path :=
      if save_path0 ∈ fsPaths fs then
        let r := splitext filename2
        pathJoin saveDir (r.1 ++ "_" ++ decStr rand2 ++ r.2)
      else save_path0
    match resp.failAfter with
    | some k =>
      (none, fsWrite save_path (((resp.chunks.take k).map List.length).sum) fs)
    | none =>
      let bytes := (resp.chunks.map List.length).sum
      if bytes = 0 then (none, fsRemove save_path (fsWrite save_path 0 fs))
      else (some save_path, fsWrite save_path bytes fs)

/-! ### The crawl scheduler (`WebsiteImageCrawler.crawl`)

The page traversal is translated from the source; the external collaborators
are supplied as oracles: `attempts page i` is the text produced by the i-th
network attempt of `_fetch_url` for `page` (`none` = the attempt raised),
`extractImages html base` is the candidate-asset set computed by
`_extract_images` (BeautifulSoup parsing is the oracle boundary), `anchors
html` is the href list that `soup.find_all('a', href=True)` yields, and `dl
url` is the result of `download_image url` inside `download_images`. -/

structure Oracles where
  attempts : String → Nat → Option String
  extractImages : String → String → List String
  anchors : String → List String
  dl : String → Option String

structure Config where
  maxImages : Nat
  formats : Option (List String)
  maxRetries : Nat

/-- Lookup in the `pages_by_depth` dict. -/
def dget : List (Nat × List String) → Nat → Option (List String)
  | [], _ => none
  | e :: t, d => if e.1 = d then some e.2 else dget t d

/-- Assignment in the `pages_by_depth` dict. -/
def dset : List (Nat × List String) → Nat → List String → List (Nat × List String)
  | [], k, v => [(k, v)]
  | e :: t, k, v => if e.1 = k then (k, v) :: t else e :: dset t k v

structure CrawlSt where
  visited : List String
  imageUrls : List String
  pagesByDepth : List (Nat × List String)
  downloaded : List String

/-- Model of `WebsiteImageCrawler._extract_links` (lines 461-489): resolve each
anchor href against the base URL, keep http(s) links on the same domain.
The result is a list — duplicates among the page's anchors survive. -/
def extract_links (anchors : List String) (base_url : String) : List String :=
  let base_domain := url_netloc base_url
  anchors.filterMap (fun href =>
    let abs_url := urljoin base_url href
    if (strStartsWith abs_url "http://" || strStartsWith abs_url "https://") &&
        (url_netloc abs_url == base_domain)
    then some abs_url else none)

/-- The attempt loop of `_fetch_url` (lines 215-280): attempts numbered
1..max_retries; the first success returns its text, exhaustion returns
`None`. -/
def fetchGo (attempt : Nat → Option String) : Nat → Nat → Option String
  | 0, _ => none
  | f + 1, i =>
    match attempt i with
    | some t => some t
    | none => fetchGo attempt f (i + 1)

/-- Model of `WebsiteImageCrawler._fetch_url`. -/
def fetch_url (attempt : Nat → Option String) (max_retries : Nat) : Option String :=
  fetchGo attempt max_retries 1

/-- The batched portion of `download_images` (lines 518-552): batches of
`min(10, len(urls))` URLs, each URL contributing at most one result. -/
def download_batches (dl : String → Option String) : Nat → List String → List String
  | 0, _ => []
  | _ + 1, [] => []
  | f + 1, urls => (urls.take 10).filterMap dl ++ download_batches dl f (urls.drop 10)

/-- Model of `WebsiteImageCrawler.download_images` (lines 491-559): up to five URLs
are downloaded one by one, larger inputs in batches; only successful
downloads are collected. -/
def download_images (dl : String → Option String) (urls : List String) : List String :=
  if urls = [] then []
  else if urls.length ≤ 5 then urls.filterMap dl
  else download_batches dl urls.length urls

/-- The per-page image block of `crawl` (lines 149-169): record newly
discovered assets and dispatch up to `max_images - len(downloaded)` of them. -/
def process_images (O : Oracles) (cfg : Config) (html page_url : String)
    (st : CrawlSt) : CrawlSt :=
  let page_images := O.extractImages html page_url
  let new_images := page_images.filter (fun img => decide (img ∉ st.imageUrls))
  let st := { st with imageUrls := sunion st.imageUrls page_images }
  if new_images ≠ [] ∧ st.downloaded.length < cfg.maxImages then
    let remaining := cfg.maxImages - st.downloaded.length
    let images_to_download := new_images.take remaining
    let new_downloads := download_images O.dl images_to_download
    { st with downloaded := st.downloaded ++ new_downloads }
  else st

/-- The per-page link block of `crawl` (lines 172-180): links not yet
visited are appended to the next depth's frontier and marked visited at
once. -/
def process_links (O : Oracles) (html page_url : String) (next_depth : Nat)
    (st : CrawlSt) : CrawlSt :=
  let links := extract_links (O.anchors html) page_url
  let new_links := links.filter (fun l => decide (l ∉ st.visited))
  { st with
    pagesByDepth :=
      dset st.pagesByDepth next_depth ((dget st.pagesByDepth next_depth).getD [] ++ new_links),
    visited := sunion st.visited new_links }

/-- The page loop of one depth level (lines 141-192).  A falsy fetch result
(`None` or the empty string) skips the page entirely (`continue`); after a
processed page, reaching the image cap ends the whole crawl (the `Bool`
component). -/
def levelGo (O : Oracles) (cfg : Config) (extractFlag : Bool) (next_depth : Nat) :
    List String → CrawlSt → CrawlSt × Bool
  | [], st => (st, false)
  | page :: rest, st =>
    match fetch_url (O.attempts page) cfg.maxRetries with
    | none => levelGo O cfg extractFlag next_depth rest st
    | some html =>
      if html = "" then levelGo O cfg extractFlag next_depth rest st
      else
        let st := process_images O cfg html page st
        let st := if extractFlag then process_links O html page next_depth st else st
        if cfg.maxImages ≤ st.downloaded.length then (st, true)
        else levelGo O cfg extractFlag next_depth rest st

/-- The depth loop of `crawl` (lines 126-192).  The fuel counts the depth
levels still to run (`depth + 1` at the start); links are only extracted
when the current depth is below the maximum, i.e. when more fuel remains. -/
def crawlLoop (O : Oracles) (cfg : Config) : Nat → Nat → CrawlSt → CrawlSt
  | 0, _, st => st
  | fuel + 1, d, st =>
    let current_pages := (dget st.pagesByDepth d).getD []
    if current_pages = [] then st
    else
      let flag := decide (fuel ≠ 0)
      let st :=
        if flag then { st with pagesByDepth := dset st.pagesByDepth (d + 1) [] } else st
      let r := levelGo O cfg flag (d + 1) current_pages st
      if r.2 then r.1
      else crawlLoop O cfg fuel (d + 1) r.1

/-- The scheme normalization at the top of `crawl` (lines 118-119). -/
def normalize_start (url : String) : String :=
  if strStartsWith url "http://" || strStartsWith url "https://" then url
  else "https://" ++ url

/-- Model of `WebsiteImageCrawler.crawl` on a freshly constructed crawler. -/
def crawl (O : Oracles) (cfg : Config) (start_url : String) (depth : Nat) : CrawlSt :=
  let s := normalize_start start_url
  crawlLoop O cfg (depth + 1) 0
    { visited := [s], imageUrls := [], pagesByDepth := [(0, [s])], downloaded := [] }

/-! ### Helper lemmas on the scheduler state -/

theorem sunion_nil (a : List String) : sunion a [] = a := rfl

theorem sunion_cons (a : List String) (x : String) (b : List String) :
    sunion a (x :: b) = sunion (if x ∈ a then a else a ++ [x]) b := rfl

theorem mem_sunion {x : String} : ∀ (b a : List String), x ∈ sunion a b ↔ x ∈ a ∨ x ∈ b := by
  intro b
  induction b with
  | nil => simp [sunion]
  | cons y t ih =>
    intro a
    rw [sunion_cons, ih]
    by_cases hy : y ∈ a
    · simp only [if_pos hy]
      constructor
      · rintro (h | h)
        · exact Or.inl h
        · exact Or.inr (List.mem_cons_of_mem _ h)
      · rintro (h | h)
        · exact Or.inl h
        · rcases List.mem_cons.mp h with rfl | h
          · exact Or.inl hy
          · exact Or.inr h
    · simp only [if_neg hy]
      simp [List.mem_append, or_assoc]

theorem dget_dset_eq : ∀ (m : List (Nat × List String)) (k : Nat) (v : List String),
    dget (dset m k v) k = some v := by
  intro m k v
  induction m with
  | nil => simp [dset, dget]
  | cons e t ih =>
    by_cases h : e.1 = k
    · simp [dset, h, dget]
    · simp [dset, h, dget, ih]

theorem dget_dset_ne : ∀ (m : List (Nat × List String)) (k : Nat) (v : List String) (j : Nat),
    j ≠ k → dget (dset m k v) j = dget m j := by
  intro m k v j hj
  have hkj : ¬ (k = j) := fun hh => hj hh.symm
  induction m with
  | nil => simp [dset, dget, hkj]
  | cons e t ih =>
    by_cases h : e.1 = k
    · simp [dset, h, dget, hkj]
    · simp [dset, h, dget, ih]

theorem process_images_visited (O : Oracles) (cfg : Config) (html p : String) (st : CrawlSt) :
    (process_images O cfg html p st).visited = st.visited := by
  simp only [process_images]
  split <;> rfl

theorem process_images_pagesByDepth (O : Oracles) (cfg : Config) (html p : String) (st : CrawlSt) :
    (process_images O cfg html p st).pagesByDepth = st.pagesByDepth := by
  simp only [process_images]
  split <;> rfl

theorem levelGo_false_fields (O : Oracles) (cfg : Config) (nd : Nat) :
    ∀ (pages : List String) (st : CrawlSt),
      (levelGo O cfg false nd pages st).1.visited = st.visited ∧
      (levelGo O cfg false nd pages st).1.pagesByDepth = st.pagesByDepth := by
  intro pages
  induction pages with
  | nil => intro st; exact ⟨rfl, rfl⟩
  | cons page rest ih =>
    intro st
    cases hf : fetch_url (O.attempts page) cfg.maxRetries with
    | none => simpa [levelGo, hf] using ih st
    | some html =>
      by_cases he : html = ""
      · simpa [levelGo, hf, he] using ih st
      · simp only [levelGo, hf, he, if_neg, Bool.false_eq_true, if_false]
        split
        · exact ⟨process_images_visited .., process_images_pagesByDepth ..⟩
        · refine ⟨?_, ?_⟩
          · rw [(ih _).1, process_images_visited]
          · rw [(ih _).2, process_images_pagesByDepth]

theorem process_links_downloaded (O : Oracles) (html p : String) (nd : Nat) (st : CrawlSt) :
    (process_links O html p nd st).downloaded = st.downloaded := rfl

theorem download_batches_length (dl : String → Option String) :
    ∀ (f : Nat) (urls : List String), (download_batches dl f urls).length ≤ urls.length := by
  intro f
  induction f with
  | zero => intro urls; simp [download_batches]
  | succ f ih =>
    intro urls
    cases urls with
    | nil => simp [download_batches]
    | cons u rest =>
      simp only [download_batches, List.length_append]
      have h1 : (((u :: rest).take 10).filterMap dl).length ≤ ((u :: rest).take 10).length :=
        List.length_filterMap_le _ _
      have h2 := ih ((u :: rest).drop 10)
      have h3 : ((u :: rest).take 10).length + ((u :: rest).drop 10).length
          = (u :: rest).length := by
        rw [← List.length_append, List.take_append_drop]
      omega

theorem download_images_length (dl : String → Option String) (urls : List String) :
    (download_images dl urls).length ≤ urls.length := by
  by_cases h : urls = []
  · simp [download_images, h]
  · by_cases h5 : urls.length ≤ 5
    · simpa [download_images, h, h5] using List.length_filterMap_le dl urls
    · simpa [download_images, h, h5] using download_batches_length dl urls.length urls

theorem process_images_downloaded_le (O : Oracles) (cfg : Config) (html p : String)
    (st : CrawlSt) (h : st.downloaded.length ≤ cfg.maxImages) :
    (process_images O cfg html p st).downloaded.length ≤ cfg.maxImages := by
  simp only [process_images]
  split
  · rename_i hcond
    simp only [List.length_append]
    have hd := download_images_length O.dl
      (((O.extractImages html p).filter (fun img => decide (img ∉ st.imageUrls))).take
        (cfg.maxImages - st.downloaded.length))
    have ht := List.length_take_le (cfg.maxImages - st.downloaded.length)
      ((O.extractImages html p).filter (fun img => decide (img ∉ st.imageUrls)))
    omega
  · exact h

/-- The state produced by one successfully fetched page. -/
def pageStep (O : Oracles) (cfg : Config) (flag : Bool) (nd : Nat)
    (html page : String) (st : CrawlSt) : CrawlSt :=
  if flag then process_links O html page nd (process_images O cfg html page st)
  else process_images O cfg html page st

theorem levelGo_cons_some (O : Oracles) (cfg : Config) (flag : Bool) (nd : Nat)
    (page : String) (rest : List String) (st : CrawlSt) (html : String)
    (hf : fetch_url (O.attempts page) cfg.maxRetries = some html) (he : html ≠ "") :
    levelGo O cfg flag nd (page :: rest) st =
      (if cfg.maxImages ≤ (pageStep O cfg flag nd html page st).downloaded.length
       then (pageStep O cfg flag nd html page st, true)
       else levelGo O cfg flag nd rest (pageStep O cfg flag nd html page st)) := by
  simp only [levelGo, hf, pageStep]
  rw [if_neg he]

theorem pageStep_downloaded_le (O : Oracles) (cfg : Config) (flag : Bool) (nd : Nat)
    (html page : String) (st : CrawlSt) (h : st.downloaded.length ≤ cfg.maxImages) :
    (pageStep O cfg flag nd html page st).downloaded.length ≤ cfg.maxImages := by
  have h1 : (process_images O cfg html page st).downloaded.length ≤ cfg.maxImages :=
    process_images_downloaded_le O cfg html page st h
  simp only [pageStep]
  split
  · rw [process_links_downloaded]; exact h1
  · exact h1

theorem levelGo_downloaded_le (O : Oracles) (cfg : Config) (flag : Bool) (nd : Nat) :
    ∀ (pages : List String) (st : CrawlSt), st.downloaded.length ≤ cfg.maxImages →
      (levelGo O cfg flag nd pages st).1.downloaded.length ≤ cfg.maxImages := by
  intro pages
  induction pages with
  | nil => intro st h; exact h
  | cons page rest ih =>
    intro st h
    cases hf : fetch_url (O.attempts page) cfg.maxRetries with
    | none => simpa [levelGo, hf] using ih st h
    | some html =>
      by_cases he : html = ""
      · simpa [levelGo, hf, he] using ih st h
      · rw [levelGo_cons_some O cfg flag nd page rest st html hf he]
        have h2 := pageStep_downloaded_le O cfg flag nd html page st h
        split
        · exact h2
        · exact ih _ h2

theorem crawlLoop_succ (O : Oracles) (cfg : Config) (fuel d : Nat) (st st1 : CrawlSt)
    (hst1 : st1 = (if decide (fuel ≠ 0) = true
      then { st with pagesByDepth := dset st.pagesByDepth (d + 1) [] } else st))
    (hp : (dget st.pagesByDepth d).getD [] ≠ []) :
    crawlLoop O cfg (fuel + 1) d st =
      (if (levelGo O cfg (decide (fuel ≠ 0)) (d + 1) ((dget st.pagesByDepth d).getD []) st1).2
       then (levelGo O cfg (decide (fuel ≠ 0)) (d + 1) ((dget st.pagesByDepth d).getD []) st1).1
       else crawlLoop O cfg fuel (d + 1)
         (levelGo O cfg (decide (fuel ≠ 0)) (d + 1) ((dget st.pagesByDepth d).getD []) st1).1) := by
  subst hst1
  simp only [crawlLoop]
  rw [if_neg hp]

theorem crawlLoop_downloaded_le (O : Oracles) (cfg : Config) :
    ∀ (fuel d : Nat) (st : CrawlSt), st.downloaded.length ≤ cfg.maxImages →
      (crawlLoop O cfg fuel d st).downloaded.length ≤ cfg.maxImages := by
  intro fuel
  induction fuel with
  | zero => intro d st h; exact h
  | succ fuel ih =>
    intro d st h
    by_cases hp : (dget st.pagesByDepth d).getD [] = []
    · simp only [crawlLoop]
      rw [if_pos hp]
      exact h
    · set st1 := (if decide (fuel ≠ 0) = true
        then { st with pagesByDepth := dset st.pagesByDepth (d + 1) [] } else st) with hst1
      rw [crawlLoop_succ O cfg fuel d st st1 hst1 hp]
      have hinit : st1.downloaded.length ≤ cfg.maxImages := by
        rw [hst1]
        split <;> exact h
      have hl := levelGo_downloaded_le O cfg (decide (fuel ≠ 0)) (d + 1)
        ((dget st.pagesByDepth d).getD []) st1 hinit
      split
      · exact hl
      · exact ih (d + 1) _ hl

/-- C1: the number of downloaded images never exceeds the configured
maximum.  Each page dispatches at most `max_images - len(downloaded)` new
candidates, and `download_images` returns at most one result per input URL,
so the bound `len(downloaded) <= max_images` is preserved by every page of
every depth level and holds in the returned result, for every choice of the
fetch/extraction/download oracles. -/
theorem downloaded_le_max_images (O : Oracles) (cfg : Config) :
    (∀ (flag : Bool) (nd : Nat) (pages : List String) (st : CrawlSt),
      st.downloaded.length ≤ cfg.maxImages →
      (levelGo O cfg flag nd pages st).1.downloaded.length ≤ cfg.maxImages) ∧
    (∀ (start_url : String) (depth : Nat),
      (crawl O cfg start_url depth).downloaded.length ≤ cfg.maxImages) := by
  constructor
  · exact fun flag nd pages st h => levelGo_downloaded_le O cfg flag nd pages st h
  · intro start_url depth
    exact crawlLoop_downloaded_le O cfg (depth + 1) 0 _ (by simp)

/-- Oracle where every network attempt fails; used to instantiate proved
theorems at concrete inputs. -/
def noOracles : Oracles where
  attempts := fun _ _ => none
  extractImages := fun _ _ => []
  anchors := fun _ => []
  dl := fun _ => none

/-- Witness for C1: the preserved bound, applied at a concrete state. -/
theorem downloaded_le_max_images_witness :
    (levelGo noOracles ⟨7, none, 3⟩ true 1 ["https://x.test/"]
      { visited := ["https://x.test/"], imageUrls := [],
        pagesByDepth := [(0, ["https://x.test/"])], downloaded := [] }).1.downloaded.length ≤ 7 :=
  (downloaded_le_max_images noOracles ⟨7, none, 3⟩).1 true 1 ["https://x.test/"]
    { visited := ["https://x.test/"], imageUrls := [],
      pagesByDepth := [(0, ["https://x.test/"])], downloaded := [] } (by simp)

/-- C7: with `maxDepth = 0` only the start page is crawled: the returned
visited set is exactly the (normalized) start URL and the depth-1 frontier
is never created, whatever the page contains. -/
theorem crawl_maxDepth_zero (O : Oracles) (cfg : Config) (start_url : String) :
    (crawl O cfg start_url 0).visited = [normalize_start start_url] ∧
    dget (crawl O cfg start_url 0).pagesByDepth 1 = none := by
  have key := levelGo_false_fields O cfg 1 [normalize_start start_url]
    { visited := [normalize_start start_url], imageUrls := [],
      pagesByDepth := [(0, [normalize_start start_url])], downloaded := [] }
  have hcrawl : crawl O cfg start_url 0 =
      (levelGo O cfg false 1 [normalize_start start_url]
        { visited := [normalize_start start_url], imageUrls := [],
          pagesByDepth := [(0, [normalize_start start_url])], downloaded := [] }).1 := by
    show crawlLoop O cfg (0 + 1) 0
      { visited := [normalize_start start_url], imageUrls := [],
        pagesByDepth := [(0, [normalize_start start_url])], downloaded := [] } = _
    rw [crawlLoop_succ O cfg 0 0
      { visited := [normalize_start start_url], imageUrls := [],
        pagesByDepth := [(0, [normalize_start start_url])], downloaded := [] }
      { visited := [normalize_start start_url], imageUrls := [],
        pagesByDepth := [(0, [normalize_start start_url])], downloaded := [] }
      (by rfl) (by simp [dget])]
    have hdec : (decide ((0:Nat) ≠ 0)) = false := by decide
    rw [hdec]
    simp only [dget, if_pos, Option.getD_some]
    split <;> rfl
  rw [hcrawl, key.1, key.2]
  simp [dget]

theorem fetchGo_none (attempt : Nat → Option String) :
    ∀ (f i : Nat), (∀ j, i ≤ j → j < i + f → attempt j = none) →
      fetchGo attempt f i = none := by
  intro f
  induction f with
  | zero => intro i _; rfl
  | succ f ih =>
    intro i h
    have h0 : attempt i = none := h i le_rfl (by omega)
    simp only [fetchGo, h0]
    exact ih (i + 1) (fun j hj1 hj2 => h j (by omega) (by omega))

/-- C6: a page whose fetch fails on every one of its `max_retries` attempts
is skipped: it contributes no assets and no links, the level loop simply
moves on to the next page at the same depth, and the crawl is not aborted. -/
theorem failed_page_skipped (O : Oracles) (cfg : Config) (page : String)
    (h : ∀ i, 1 ≤ i → i ≤ cfg.maxRetries → O.attempts page i = none) :
    ∀ (flag : Bool) (nd : Nat) (rest : List String) (st : CrawlSt),
      levelGo O cfg flag nd (page :: rest) st = levelGo O cfg flag nd rest st := by
  intro flag nd rest st
  have hf : fetch_url (O.attempts page) cfg.maxRetries = none :=
    fetchGo_none _ cfg.maxRetries 1 (fun j h1 h2 => h j h1 (by omega))
  simp [levelGo, hf]

/-- Witness for C6 at a concrete always-failing oracle. -/
theorem failed_page_skipped_witness :
    levelGo noOracles ⟨5, none, 3⟩ true 1 ["https://x.test/p", "https://x.test/q"]
      { visited := ["https://x.test/p"], imageUrls := [],
        pagesByDepth := [(0, ["https://x.test/p"])], downloaded := [] } =
    levelGo noOracles ⟨5, none, 3⟩ true 1 ["https://x.test/q"]
      { visited := ["https://x.test/p"], imageUrls := [],
        pagesByDepth := [(0, ["https://x.test/p"])], downloaded := [] } :=
  failed_page_skipped noOracles ⟨5, none, 3⟩ "https://x.test/p" (fun _ _ _ => rfl) true 1
    ["https://x.test/q"]
    { visited := ["https://x.test/p"], imageUrls := [],
      pagesByDepth := [(0, ["https://x.test/p"])], downloaded := [] }

/-! ### Frontier invariants (claim C2) -/

/-- Every URL sitting in any frontier list has been marked visited. -/
def FrontierSub (st : CrawlSt) : Prop :=
  ∀ d l, dget st.pagesByDepth d = some l → ∀ u ∈ l, u ∈ st.visited

/-- Frontier lists at distinct depths share no URL. -/
def FrontierDisj (st : CrawlSt) : Prop :=
  ∀ d d' l l', d ≠ d' → dget st.pagesByDepth d = some l →
    dget st.pagesByDepth d' = some l' → ∀ u ∈ l, u ∉ l'

theorem FrontierSub_congr {st st' : CrawlSt} (hv : st'.visited = st.visited)
    (hp : st'.pagesByDepth = st.pagesByDepth) (h : FrontierSub st) : FrontierSub st' := by
  intro d l hd u hu
  rw [hv]
  rw [hp] at hd
  exact h d l hd u hu

theorem FrontierDisj_congr {st st' : CrawlSt}
    (hp : st'.pagesByDepth = st.pagesByDepth) (h : FrontierDisj st) : FrontierDisj st' := by
  intro d d' l l' hne hd hd'
  rw [hp] at hd hd'
  exact h d d' l l' hne hd hd'

theorem FrontierSub_dset_nil {st : CrawlSt} (k : Nat) (h : FrontierSub st) :
    FrontierSub { st with pagesByDepth := dset st.pagesByDepth k [] } := by
  intro d l hd u hu
  by_cases hk : d = k
  · subst hk
    rw [show ({ st with pagesByDepth := dset st.pagesByDepth d [] } : CrawlSt).pagesByDepth
      = dset st.pagesByDepth d [] from rfl, dget_dset_eq] at hd
    injection hd with hd
    subst hd
    simp at hu
  · rw [show ({ st with pagesByDepth := dset st.pagesByDepth k [] } : CrawlSt).pagesByDepth
      = dset st.pagesByDepth k [] from rfl, dget_dset_ne _ _ _ _ hk] at hd
    exact h d l hd u hu

theorem FrontierDisj_dset_nil {st : CrawlSt} (k : Nat) (h : FrontierDisj st) :
    FrontierDisj { st with pagesByDepth := dset st.pagesByDepth k [] } := by
  intro d d' l l' hne hd hd' u hu
  by_cases hk : d = k
  · subst hk
    rw [show ({ st with pagesByDepth := dset st.pagesByDepth d [] } : CrawlSt).pagesByDepth
      = dset st.pagesByDepth d [] from rfl, dget_dset_eq] at hd
    injection hd with hd
    subst hd
    simp at hu
  · by_cases hk' : d' = k
    · subst hk'
      rw [show ({ st with pagesByDepth := dset st.pagesByDepth d' [] } : CrawlSt).pagesByDepth
        = dset st.pagesByDepth d' [] from rfl, dget_dset_eq] at hd'
      injection hd' with hd'
      subst hd'
      simp
    · rw [show ({ st with pagesByDepth := dset st.pagesByDepth k [] } : CrawlSt).pagesByDepth
        = dset st.pagesByDepth k [] from rfl] at hd hd'
      rw [dget_dset_ne _ _ _ _ hk] at hd
      rw [dget_dset_ne _ _ _ _ hk'] at hd'
      exact h d d' l l' hne hd hd' u hu

theorem process_links_pagesByDepth (O : Oracles) (html p : String) (nd : Nat) (st : CrawlSt) :
    (process_links O html p nd st).pagesByDepth =
      dset st.pagesByDepth nd ((dget st.pagesByDepth nd).getD [] ++
        (extract_links (O.anchors html) p).filter (fun l => decide (l ∉ st.visited))) := rfl

theorem process_links_visited (O : Oracles) (html p : String) (nd : Nat) (st : CrawlSt) :
    (process_links O html p nd st).visited =
      sunion st.visited
        ((extract_links (O.anchors html) p).filter (fun l => decide (l ∉ st.visited))) := rfl

theorem frontier_inv_process_links (O : Oracles) (html p : String) (nd : Nat) (st : CrawlSt)
    (h1 : FrontierSub st) (h2 : FrontierDisj st) :
    FrontierSub (process_links O html p nd st) ∧ FrontierDisj (process_links O html p nd st) := by
  have hnew_not_vis : ∀ u ∈ (extract_links (O.anchors html) p).filter
      (fun l => decide (l ∉ st.visited)), u ∉ st.visited := by
    intro u hu
    have := (List.mem_filter.mp hu).2
    simpa using this
  have hold : ∀ u, u ∈ (dget st.pagesByDepth nd).getD [] → u ∈ st.visited := by
    intro u hu
    cases hnd : dget st.pagesByDepth nd with
    | none => rw [hnd] at hu; simp at hu
    | some o => rw [hnd] at hu; exact h1 nd o hnd u hu
  constructor
  · intro d l hd u hu
    rw [process_links_visited, mem_sunion]
    rw [process_links_pagesByDepth] at hd
    by_cases hk : d = nd
    · subst hk
      rw [dget_dset_eq] at hd
      injection hd with hd
      subst hd
      rcases List.mem_append.mp hu with h | h
      · exact Or.inl (hold u h)
      · exact Or.inr h
    · rw [dget_dset_ne _ _ _ _ hk] at hd
      exact Or.inl (h1 d l hd u hu)
  · intro d d' l l' hne hd hd' u hu
    rw [process_links_pagesByDepth] at hd hd'
    by_cases hk : d = nd
    · subst hk
      have hk' : d' ≠ d := fun hh => hne hh.symm
      rw [dget_dset_eq] at hd
      injection hd with hd
      subst hd
      rw [dget_dset_ne _ _ _ _ hk'] at hd'
      intro hul'
      rcases List.mem_append.mp hu with h | h
      · cases hnd : dget st.pagesByDepth d with
        | none => rw [hnd] at h; simp at h
        | some o =>
          rw [hnd] at h
          exact h2 d d' o l' hne hnd hd' u h hul'
      · exact hnew_not_vis u h (h1 d' l' hd' u hul')
    · by_cases hk' : d' = nd
      · subst hk'
        rw [dget_dset_eq] at hd'
        injection hd' with hd'
        subst hd'
        rw [dget_dset_ne _ _ _ _ hk] at hd
        intro hul'
        rcases List.mem_append.mp hul' with h | h
        · cases hnd : dget st.pagesByDepth d' with
          | none => rw [hnd] at h; simp at h
          | some o =>
            rw [hnd] at h
            exact h2 d d' l o hk hd hnd u hu h
        · exact hnew_not_vis u h (h1 d l hd u hu)
      · rw [dget_dset_ne _ _ _ _ hk] at hd
        rw [dget_dset_ne _ _ _ _ hk'] at hd'
        exact h2 d d' l l' hne hd hd' u hu

theorem pageStep_frontier_inv (O : Oracles) (cfg : Config) (flag : Bool) (nd : Nat)
    (html page : String) (st : CrawlSt) (h1 : FrontierSub st) (h2 : FrontierDisj st) :
    FrontierSub (pageStep O cfg flag nd html page st) ∧
    FrontierDisj (pageStep O cfg flag nd html page st) := by
  have h1' : FrontierSub (process_images O cfg html page st) :=
    FrontierSub_congr (process_images_visited ..) (process_images_pagesByDepth ..) h1
  have h2' : FrontierDisj (process_images O cfg html page st) :=
    FrontierDisj_congr (process_images_pagesByDepth ..) h2
  simp only [pageStep]
  split
  · exact frontier_inv_process_links O html page nd _ h1' h2'
  · exact ⟨h1', h2'⟩

theorem levelGo_frontier_inv (O : Oracles) (cfg : Config) (flag : Bool) (nd : Nat) :
    ∀ (pages : List String) (st : CrawlSt), FrontierSub st → FrontierDisj st →
      FrontierSub (levelGo O cfg flag nd pages st).1 ∧
      FrontierDisj (levelGo O cfg flag nd pages st).1 := by
  intro pages
  induction pages with
  | nil => intro st h1 h2; exact ⟨h1, h2⟩
  | cons page rest ih =>
    intro st h1 h2
    cases hf : fetch_url (O.attempts page) cfg.maxRetries with
    | none => simpa [levelGo, hf] using ih st h1 h2
    | some html =>
      by_cases he : html = ""
      · simpa [levelGo, hf, he] using ih st h1 h2
      · rw [levelGo_cons_some O cfg flag nd page rest st html hf he]
        have hps := pageStep_frontier_inv O cfg flag nd html page st h1 h2
        split
        · exact hps
        · exact ih _ hps.1 hps.2

theorem crawlLoop_frontier_inv (O : Oracles) (cfg : Config) :
    ∀ (fuel d : Nat) (st : CrawlSt), FrontierSub st → FrontierDisj st →
      FrontierSub (crawlLoop O cfg fuel d st) ∧ FrontierDisj (crawlLoop O cfg fuel d st) := by
  intro fuel
  induction fuel with
  | zero => intro d st h1 h2; exact ⟨h1, h2⟩
  | succ fuel ih =>
    intro d st h1 h2
    by_cases hp : (dget st.pagesByDepth d).getD [] = []
    · simp only [crawlLoop]
      rw [if_pos hp]
      exact ⟨h1, h2⟩
    · set st1 := (if decide (fuel ≠ 0) = true
        then { st with pagesByDepth := dset st.pagesByDepth (d + 1) [] } else st) with hst1
      rw [crawlLoop_succ O cfg fuel d st st1 hst1 hp]
      have hinit : FrontierSub st1 ∧ FrontierDisj st1 := by
        rw [hst1]
        split
        · exact ⟨FrontierSub_dset_nil (d + 1) h1, FrontierDisj_dset_nil (d + 1) h2⟩
        · exact ⟨h1, h2⟩
      have hl := levelGo_frontier_inv O cfg (decide (fuel ≠ 0)) (d + 1)
        ((dget st.pagesByDepth d).getD []) st1 hinit.1 hinit.2
      split
      · exact hl
      · exact ih (d + 1) _ hl.1 hl.2

/-- Oracle for a start page whose HTML lists the same same-domain link
twice; every other page fails to fetch. -/
def exOracles : Oracles where
  attempts := fun page _ => if page = "https://x.test/" then some "H" else none
  extractImages := fun _ _ => []
  anchors := fun html => if html = "H" then ["https://x.test/a", "https://x.test/a"] else []
  dl := fun _ => none

/-- C2 counterexample: a single page listing the same link twice enqueues it
twice — after crawling `https://x.test/` (whose anchor list is the link
`https://x.test/a` repeated), the depth-1 frontier contains that URL twice,
so a URL can appear twice within a single depth's page list. -/
theorem frontier_duplicate_counterexample :
    ((dget (crawl exOracles ⟨100, none, 3⟩ "https://x.test/" 1).pagesByDepth 1).getD
      []).count "https://x.test/a" = 2 := by
  decide

theorem frontier_inv_init (s : String) :
    FrontierSub
      { visited := [s], imageUrls := [],
        pagesByDepth := [(0, [s])], downloaded := [] } ∧
    FrontierDisj
      { visited := [s], imageUrls := [],
        pagesByDepth := [(0, [s])], downloaded := [] } := by
  constructor
  · intro e le he v hv
    simp only [dget] at he
    split at he
    · injection he with he
      subst he
      simpa using hv
    · cases he
  · intro e e' le le' hne he he'
    simp only [dget] at he he'
    split at he
    · split at he'
      · rename_i h0 h0'
        exact absurd (h0.symm.trans h0') hne
      · cases he'
    · cases he

/-- C2 amended: (i) each URL appears in the frontier at at most one depth of
the returned state (first-seen depth wins); (ii) a URL already enqueued by
one page is never re-enqueued by another page: in any state whose frontier
entries are all marked visited, a URL sitting in any frontier list is absent
from the enqueue batch (the visited-filtered links) of every later page;
(iii) that premise is not vacuous — the visited-marking invariant, together
with cross-depth disjointness, is preserved by every depth level, and (iv)
holds for the state returned by every crawl.  Only a single page listing the
same link twice can duplicate a URL within one depth's list (see the
counterexample). -/
theorem frontier_no_reenqueue (O : Oracles) (cfg : Config) :
    (∀ (start_url : String) (depth d d' : Nat) (l l' : List String) (u : String),
      dget (crawl O cfg start_url depth).pagesByDepth d = some l → u ∈ l →
      dget (crawl O cfg start_url depth).pagesByDepth d' = some l' → u ∈ l' → d = d') ∧
    (∀ (html page : String) (st : CrawlSt) (d : Nat) (l : List String) (u : String),
      FrontierSub st → dget st.pagesByDepth d = some l → u ∈ l →
      u ∉ (extract_links (O.anchors html) page).filter (fun x => decide (x ∉ st.visited))) ∧
    (∀ (flag : Bool) (nd : Nat) (pages : List String) (st : CrawlSt),
      FrontierSub st → FrontierDisj st →
      FrontierSub (levelGo O cfg flag nd pages st).1 ∧
      FrontierDisj (levelGo O cfg flag nd pages st).1) ∧
    (∀ (start_url : String) (depth : Nat),
      FrontierSub (crawl O cfg start_url depth) ∧
      FrontierDisj (crawl O cfg start_url depth)) := by
  have hfin : ∀ (start_url : String) (depth : Nat),
      FrontierSub (crawl O cfg start_url depth) ∧
      FrontierDisj (crawl O cfg start_url depth) := by
    intro start_url depth
    have hinit := frontier_inv_init (normalize_start start_url)
    exact crawlLoop_frontier_inv O cfg (depth + 1) 0
      { visited := [normalize_start start_url], imageUrls := [],
        pagesByDepth := [(0, [normalize_start start_url])], downloaded := [] }
      hinit.1 hinit.2
  refine ⟨?_, ?_, ?_, hfin⟩
  · intro start_url depth d d' l l' u hd hu hd' hu'
    by_contra hne
    exact (hfin start_url depth).2 d d' l l' hne hd hd' u hu hu'
  · intro html page st d l u hsub hd hu hmem
    have hvis : u ∈ st.visited := hsub d l hd u hu
    have hflt := (List.mem_filter.mp hmem).2
    simp only [decide_eq_true_eq] at hflt
    exact hflt hvis
  · exact fun flag nd pages st h1 h2 => levelGo_frontier_inv O cfg flag nd pages st h1 h2

/-- A one-page crawl state used to instantiate the amended C2 theorem. -/
def exState : CrawlSt :=
  { visited := ["https://x.test/"], imageUrls := [],
    pagesByDepth := [(0, ["https://x.test/"])], downloaded := [] }

/-- Witness for the amended C2 theorem: the start URL, already enqueued at
depth 0 of a concrete state, is absent from the enqueue batch computed for a
later page. -/
theorem frontier_no_reenqueue_witness :
    "https://x.test/" ∉ (extract_links (exOracles.anchors "H") "https://x.test/").filter
      (fun x => decide (x ∉ exState.visited)) :=
  (frontier_no_reenqueue exOracles ⟨100, none, 3⟩).2.1 "H" "https://x.test/" exState 0
    ["https://x.test/"] "https://x.test/"
    (by
      intro d l hd u hu
      simp only [exState, dget] at hd
      split at hd
      · injection hd with hd
        subst hd
        simpa [exState] using hu
      · cases hd)
    (by decide) (by decide)

/-! ### Collision resolution (claim C8) -/

theorem string_eq_of_data_eq {s t : String} (h : s.data = t.data) : s = t :=
  String.ext h

theorem pathJoin_head_eq {b c : String} (hh : b.data.head? = c.data.head?) (a : String) :
    strStartsWith b "/" = strStartsWith c "/" := by
  simp only [strStartsWith]
  cases hb : b.data with
  | nil =>
    cases hc : c.data with
    | nil => rfl
    | cons y t => rw [hb, hc] at hh; simp at hh
  | cons x t =>
    cases hc : c.data with
    | nil => rw [hb, hc] at hh; simp at hh
    | cons y t' =>
      rw [hb, hc] at hh
      simp only [List.head?_cons, Option.some.injEq] at hh
      subst hh
      show List.isPrefixOf _ _ = List.isPrefixOf _ _
      simp [List.isPrefixOf]

theorem pathJoin_inj_of_head {b c : String} (hh : b.data.head? = c.data.head?) (a : String)
    (h : pathJoin a b = pathJoin a c) : b = c := by
  have hs := pathJoin_head_eq hh a
  simp only [pathJoin] at h
  by_cases h1 : strStartsWith b "/" = true
  · rw [if_pos h1, if_pos (hs ▸ h1)] at h
    exact h
  · rw [if_neg h1, if_neg (fun hc => h1 (hs ▸ hc))] at h
    by_cases h2 : a = ""
    · rw [if_pos h2, if_pos h2] at h
      exact h
    · rw [if_neg h2, if_neg h2] at h
      by_cases h3 : strEndsWith a "/" = true
      · rw [if_pos h3, if_pos h3] at h
        have := congrArg String.data h
        rw [String.data_append, String.data_append] at this
        exact string_eq_of_data_eq (List.append_cancel_left this)
      · rw [if_neg h3, if_neg h3] at h
        have := congrArg String.data h
        rw [String.data_append, String.data_append, String.data_append,
          String.data_append] at this
        rw [List.append_assoc, List.append_assoc] at this
        exact string_eq_of_data_eq (List.append_cancel_left (List.append_cancel_left this))

theorem collideCand_inj (dir base ext : String) : ∀ {i j : Nat},
    collideCand dir base ext i = collideCand dir base ext j → i = j := by
  intro i j h
  have hfni : (base ++ "_" ++ decStr i ++ ext).data
      = base.data ++ ('_' :: ((decStr i).data ++ ext.data)) := by
    rw [String.data_append, String.data_append, String.data_append]
    simp
  have hfnj : (base ++ "_" ++ decStr j ++ ext).data
      = base.data ++ ('_' :: ((decStr j).data ++ ext.data)) := by
    rw [String.data_append, String.data_append, String.data_append]
    simp
  have hh : (base ++ "_" ++ decStr i ++ ext).data.head?
      = (base ++ "_" ++ decStr j ++ ext).data.head? := by
    rw [hfni, hfnj]
    cases base.data <;> simp
  have hfn := pathJoin_inj_of_head hh dir h
  have hdata := congrArg String.data hfn
  rw [hfni, hfnj] at hdata
  have h2 := List.append_cancel_left hdata
  have h3 : (decStr i).data ++ ext.data = (decStr j).data ++ ext.data := by
    injection h2
  have h4 : (decStr i).data = (decStr j).data := List.append_cancel_right h3
  exact decStr_injective (string_eq_of_data_eq h4)

theorem collideLoop_not_mem (fs : List String) (dir base ext : String) :
    ∀ (fuel c : Nat) (p : String),
      (p ∉ fs ∨ ∃ i, c ≤ i ∧ i < c + fuel ∧ collideCand dir base ext i ∉ fs) →
      collideLoop fs dir base ext fuel c p ∉ fs := by
  intro fuel
  induction fuel with
  | zero =>
    intro c p h
    rcases h with h | ⟨i, h1, h2, _⟩
    · simpa [collideLoop, h] using h
    · omega
  | succ f ih =>
    intro c p h
    by_cases hp : p ∈ fs
    · simp only [collideLoop, if_pos hp]
      apply ih (c + 1) (collideCand dir base ext c)
      rcases h with h | ⟨i, h1, h2, h3⟩
      · exact absurd hp h
      · by_cases hic : i = c
        · subst hic
          exact Or.inl h3
        · exact Or.inr ⟨i, by omega, by omega, h3⟩
    · simpa [collideLoop, hp] using hp

theorem exists_free_cand (fs : List String) (dir base ext : String) (c : Nat) :
    ∃ i, c ≤ i ∧ i < c + (fs.length + 1) ∧ collideCand dir base ext i ∉ fs := by
  by_contra hcon
  push_neg at hcon
  have hmap : ∀ x ∈ (List.range' c (fs.length + 1)).map (collideCand dir base ext), x ∈ fs := by
    intro x hx
    rcases List.mem_map.mp hx with ⟨i, hi, rfl⟩
    rcases List.mem_range'_1.mp hi with ⟨hi1, hi2⟩
    exact hcon i hi1 hi2
  have hnodup : ((List.range' c (fs.length + 1)).map (collideCand dir base ext)).Nodup :=
    (List.nodup_range' ..).map (fun a b hab => collideCand_inj dir base ext hab)
  have hcard : ((List.range' c (fs.length + 1)).map (collideCand dir base ext)).length
      ≤ fs.length := by
    calc ((List.range' c (fs.length + 1)).map (collideCand dir base ext)).length
        = ((List.range' c (fs.length + 1)).map (collideCand dir base ext)).toFinset.card :=
          (List.toFinset_card_of_nodup hnodup).symm
      _ ≤ fs.toFinset.card := by
          apply Finset.card_le_card
          intro x hx
          rw [List.mem_toFinset] at hx
          rw [List.mem_toFinset]
          exact hmap x hx
      _ ≤ fs.length := fs.toFinset_card_le
  simp at hcard

/-- C8: collision resolution never returns a path that already exists on
disk (so no existing file is overwritten, and sequential saves of the same
base name produce pairwise distinct paths), and concretely two assets that
both resolve to `photo.jpg` are saved as `photo.jpg` and `photo_1.jpg`. -/
theorem collision_resolution_injective :
    (∀ (fs : List String) (dir filename : String), resolve_collision fs dir filename ∉ fs) ∧
    resolve_collision [] "out" "photo.jpg" = "out/photo.jpg" ∧
    resolve_collision ["out/photo.jpg"] "out" "photo.jpg" = "out/photo_1.jpg" := by
  refine ⟨?_, by decide, by decide⟩
  intro fs dir filename
  have hfree := exists_free_cand fs dir (splitext filename).1 (splitext filename).2 1
  rcases hfree with ⟨i, h1, h2, h3⟩
  exact collideLoop_not_mem fs dir (splitext filename).1 (splitext filename).2
    (fs.length + 1) 1 (pathJoin dir filename) (Or.inr ⟨i, h1, h2, h3⟩)

/-- Witness for C8: the no-overwrite property at a concrete one-file disk. -/
theorem collision_resolution_injective_witness :
    resolve_collision ["out/photo.jpg"] "out" "photo.jpg" ∉ ["out/photo.jpg"] :=
  collision_resolution_injective.1 ["out/photo.jpg"] "out" "photo.jpg"

/-! ### URL extension defaulting (claim C9) -/

/-- C9: a URL whose path has no extension, or an extension outside the
recognized image set, gets extension `jpg` from `_get_extension_from_url`;
consequently, whenever the configured format filter contains `jpg`, such a
URL passes the extractor's format-filter step and satisfies the download
manager's URL-extension check, even though the URL declares no jpg
extension. -/
theorem unrecognized_extension_defaults_jpg (url : String)
    (h : urlExtRaw url ∉ recognizedUrlExts) :
    get_extension_from_url url = "jpg" ∧
    ∀ formats : List String, "jpg" ∈ formats →
      extract_format_filter formats [url] = [url] ∧
      url_format_matched formats url = true := by
  have hext : get_extension_from_url url = "jpg" := by
    simp only [get_extension_from_url]
    rw [if_neg h]
  refine ⟨hext, ?_⟩
  intro formats hf
  constructor
  · simp [extract_format_filter, hext, hf]
  · have hlow : strLower "jpg" = "jpg" := by decide
    simp [url_format_matched, hext, hlow, hf]

/-- Witness for C9 at a URL whose path has no extension at all. -/
theorem unrecognized_extension_defaults_jpg_witness :
    get_extension_from_url "https://x.test/assets/imgfile" = "jpg" ∧
    extract_format_filter ["jpg"] ["https://x.test/assets/imgfile"]
      = ["https://x.test/assets/imgfile"] ∧
    url_format_matched ["jpg"] "https://x.test/assets/imgfile" = true :=
  ⟨(unrecognized_extension_defaults_jpg "https://x.test/assets/imgfile" (by decide)).1,
   ((unrecognized_extension_defaults_jpg "https://x.test/assets/imgfile" (by decide)).2
      ["jpg"] (by decide)).1,
   ((unrecognized_extension_defaults_jpg "https://x.test/assets/imgfile" (by decide)).2
      ["jpg"] (by decide)).2⟩

/-! ### Filename sanitization (claim C10) -/

theorem digit_not_invalid {c : Char} (h : c.isDigit = true) : c ∉ invalidChars := by
  intro hc
  fin_cases hc <;> exact absurd h (by decide)

theorem fallback_name_chars (ts rnd : Nat) :
    ∀ c ∈ ("image_" ++ decStr ts ++ "_" ++ decStr rnd ++ ".jpg").data, c ∉ invalidChars := by
  intro c hc
  rw [String.data_append, String.data_append, String.data_append,
    String.data_append] at hc
  simp only [List.mem_append] at hc
  rcases hc with ((((hc | hc) | hc) | hc) | hc)
  · fin_cases hc <;> decide
  · exact digit_not_invalid (decChars_digits_only ts c hc)
  · fin_cases hc <;> decide
  · exact digit_not_invalid (decChars_digits_only rnd c hc)
  · fin_cases hc <;> decide

theorem splitextList_fst_subset (p : List Char) : ∀ c ∈ (splitextList p).1, c ∈ p := by
  intro c hc
  simp only [splitextList] at hc
  split at hc
  · exact hc
  · split at hc
    · exact (List.take_sublist _ _).mem hc
    · exact hc

theorem splitextList_snd_subset (p : List Char) : ∀ c ∈ (splitextList p).2, c ∈ p := by
  intro c hc
  simp only [splitextList] at hc
  split at hc
  · simp at hc
  · split at hc
    · exact (List.drop_sublist _ _).mem hc
    · simp at hc

theorem stripDotsSpaces_subset (l : List Char) : ∀ c ∈ stripDotsSpaces l, c ∈ l := by
  intro c hc
  simp only [stripDotsSpaces, List.mem_reverse] at hc
  have h1 := (List.dropWhile_sublist (l := (l.dropWhile fun c => c = '.' ∨ c = ' ').reverse)
    (p := fun c => decide (c = '.' ∨ c = ' '))).mem hc
  rw [List.mem_reverse] at h1
  exact (List.dropWhile_sublist _).mem h1

theorem sanitize_chars (ts rnd : Nat) (filename : String) :
    ∀ c ∈ (sanitize_filename ts rnd filename).data, c ∉ invalidChars := by
  intro c hc
  have hmap : ∀ c ∈ filename.data.map
      (fun c => if c ∈ invalidChars then '_' else c), c ∉ invalidChars := by
    intro x hx
    rcases List.mem_map.mp hx with ⟨y, _, rfl⟩
    by_cases hy : y ∈ invalidChars
    · rw [if_pos hy]
      decide
    · rw [if_neg hy]
      exact hy
  simp only [sanitize_filename] at hc
  set l0 := filename.data.map (fun c => if c ∈ invalidChars then '_' else c) with hl0
  set l1 := (if 150 < l0.length then (splitextList l0).1.take 140 ++ (splitextList l0).2
    else l0) with hl1
  have hl1sub : ∀ c ∈ l1, c ∉ invalidChars := by
    intro x hx
    rw [hl1] at hx
    split at hx
    · rcases List.mem_append.mp hx with hx | hx
      · exact hmap x (splitextList_fst_subset l0 x ((List.take_sublist _ _).mem hx))
      · exact hmap x (splitextList_snd_subset l0 x hx)
    · exact hmap x hx
  set l2 := stripDotsSpaces l1 with hl2
  have hl2sub : ∀ c ∈ l2, c ∉ invalidChars := fun x hx =>
    hl1sub x (stripDotsSpaces_subset l1 x hx)
  split at hc
  · exact fallback_name_chars ts rnd c hc
  · exact hl2sub c hc

theorem finalize_ne_empty (ts rnd : Nat) (l : List Char) :
    (if l.isEmpty ∨ l = ['.']
      then ("image_" ++ decStr ts ++ "_" ++ decStr rnd ++ ".jpg" : String)
      else String.mk l) ≠ "" := by
  split
  · intro h
    have hd := congrArg String.data h
    rw [String.data_append, String.data_append, String.data_append,
      String.data_append] at hd
    simp at hd
  · rename_i hcond
    intro h
    have hd : l = List.nil := congrArg String.data h
    exact hcond (Or.inl (List.isEmpty_iff.mpr hd))

theorem sanitize_filename_ne_empty (ts rnd : Nat) (filename : String) :
    sanitize_filename ts rnd filename ≠ "" :=
  finalize_ne_empty ts rnd _

/-- C10: `_sanitize_filename` always returns a non-empty name containing
none of the characters `< > : " / \ | ? *`; in particular the result
contains no path separator, so joining it to the output directory names a
file directly inside that directory. -/
theorem sanitize_filename_safe (ts rnd : Nat) (filename : String) :
    sanitize_filename ts rnd filename ≠ "" ∧
    (sanitize_filename ts rnd filename).data.all
      (fun c => decide (c ∉ invalidChars)) = true ∧
    (sanitize_filename ts rnd filename).data.all
      (fun c => decide (c ≠ '/') && decide (c ≠ '\\')) = true := by
  refine ⟨sanitize_filename_ne_empty ts rnd filename, ?_, ?_⟩
  · rw [List.all_eq_true]
    intro c hc
    simpa using sanitize_chars ts rnd filename c hc
  · rw [List.all_eq_true]
    intro c hc
    have h := sanitize_chars ts rnd filename c hc
    have h1 : c ≠ '/' := fun he => h (he ▸ (by decide : ('/' : Char) ∈ invalidChars))
    have h2 : c ≠ '\\' := fun he => h (he ▸ (by decide : ('\\' : Char) ∈ invalidChars))
    simp [h1, h2]

/-- Witness for C10 at a concrete name holding invalid characters. -/
theorem sanitize_filename_safe_witness :
    sanitize_filename 3 4 "a<b>.jpg" ≠ "" ∧
    (sanitize_filename 3 4 "a<b>.jpg").data.all
      (fun c => decide (c ∉ invalidChars)) = true ∧
    (sanitize_filename 3 4 "a<b>.jpg").data.all
      (fun c => decide (c ≠ '/') && decide (c ≠ '\\')) = true :=
  sanitize_filename_safe 3 4 "a<b>.jpg"

/-! ### Empty bodies and I/O failures in the download managers (C3, C4) -/

/-- Response with a completed zero-byte body. -/
def c3resp : HttpResp :=
  { headContentType := "image/jpeg", getContentType := "image/jpeg",
    disposition := none, chunks := [], failAfter := none }

/-- C3 counterexample: the core crawler's `download_image` has no empty-body
check — a streaming fetch that completes with zero bytes is saved and its
path returned, and the zero-byte file stays on disk, contradicting the
claimed reject-and-remove behaviour. -/
theorem empty_body_counterexample :
    wic_download_image "out" "https://x.test/photo.jpg" none c3resp 0 0 0 [] =
      (some "out/photo.jpg", [("out/photo.jpg", 0)]) := by
  decide

/-- C3 amended: the empty-body rejection lives in the search-engine variant
(`ImageScraper.download_image`): a body that completes with zero bytes is
removed from disk (no new file remains) and the function returns `None`;
the core crawler instead saves the zero-byte file and returns its path (see
the counterexample). -/
theorem empty_body_rejected_in_image_scraper
    (saveDir url : String) (formats : Option (List String)) (resp : HttpResp)
    (ts rnd rand2 : Nat) (fs : List (String × Nat))
    (hct : strStartsWith (strLower resp.headContentType) "image/" = true)
    (hfmt : truthyFormats formats = true →
      content_format_matched (formats.getD []) (strLower resp.headContentType) = true)
    (hfail : resp.failAfter = none)
    (hempty : (resp.chunks.map List.length).sum = 0) :
    (is_download_image saveDir url formats resp ts rnd rand2 fs).1 = none ∧
    ∀ q ∈ fsPaths (is_download_image saveDir url formats resp ts rnd rand2 fs).2,
      q ∈ fsPaths fs := by
  obtain ⟨hCT, gCT, disp, chunks, fAfter⟩ := resp
  simp only at hct hfmt hfail hempty
  subst hfail
  have hc1 : ¬¬ (strStartsWith (strLower hCT) "image/" = true) :=
    fun hh => hh hct
  have hc2 : ¬ (truthyFormats formats = true ∧
      ¬ content_format_matched (formats.getD []) (strLower hCT) = true) := by
    rintro ⟨h1, h2⟩
    exact h2 (hfmt h1)
  simp only [is_download_image]
  rw [if_neg hc1, if_neg hc2, if_pos hempty]
  constructor
  · rfl
  · intro q hq
    simp only [fsPaths, fsRemove, fsWrite, List.mem_map] at hq ⊢
    rcases hq with ⟨e, he, rfl⟩
    have he1 := List.mem_filter.mp he
    rcases List.mem_cons.mp he1.1 with heq | he3
    · exfalso
      have := he1.2
      rw [heq] at this
      simp at this
    · exact ⟨e, (List.mem_filter.mp he3).1, rfl⟩

/-- Witness for the amended C3 theorem: a concrete zero-byte download in the
search-engine variant returns `None`. -/
theorem empty_body_rejected_in_image_scraper_witness :
    (is_download_image "out" "https://x.test/photo.jpg" none c3resp 7 8 9 []).1 = none :=
  (empty_body_rejected_in_image_scraper "out" "https://x.test/photo.jpg" none c3resp 7 8 9 []
    (by decide) (fun h => by exact absurd h (by decide)) rfl rfl).1

/-- Response whose streaming write fails after the first chunk. -/
def c4resp : HttpResp :=
  { headContentType := "image/jpeg", getContentType := "image/jpeg",
    disposition := none, chunks := [[1, 2], [3]], failAfter := some 1 }

/-- C4 counterexample: when every streaming write fails mid-body, the core
crawler reports failure (`None`) but the partial file written by the first
attempt (2 of the 3 body bytes) is still on disk — it is never deleted,
contradicting the claimed delete-partial-file behaviour. -/
theorem partial_file_not_deleted_counterexample :
    (wic_download_image "out" "https://x.test/photo.jpg" none c4resp 0 0 0 []).1 = none ∧
    ("out/photo.jpg", 2) ∈
      (wic_download_image "out" "https://x.test/photo.jpg" none c4resp 0 0 0 []).2 := by
  decide

/-- C4 amended: an I/O failure while streaming the body raises out of the
attempt, which the retry loop treats as a retryable failure (retrying with
backoff and finally returning `None`), but the partial file is NOT deleted:
after the failing attempt it remains on disk under the resolved save path
with the bytes written so far. -/
theorem io_failure_leaves_partial_file
    (saveDir url : String) (formats : Option (List String)) (resp : HttpResp)
    (urlHash ts rnd : Nat) (fs : List (String × Nat)) (k : Nat)
    (hct : wic_content_type_ok resp.headContentType = true)
    (hfmt : truthyFormats formats = true →
      wic_format_gate formats url resp.headContentType = true)
    (hfail : resp.failAfter = some k) :
    (wic_attempt saveDir url formats resp urlHash ts rnd fs).1 = .ioErr ∧
    (wic_save_path fs saveDir (wic_resolve_filename url resp.disposition urlHash ts rnd
        (wic_resolve_extension formats url resp.getContentType).1),
      ((resp.chunks.take k).map List.length).sum) ∈
      (wic_attempt saveDir url formats resp urlHash ts rnd fs).2.1 := by
  obtain ⟨hCT, gCT, disp, chunks, fAfter⟩ := resp
  simp only at hct hfmt hfail ⊢
  subst hfail
  have hc1 : ¬¬ (wic_content_type_ok hCT = true) := fun hh => hh hct
  have hc2 : ¬ (truthyFormats formats = true ∧
      ¬ wic_format_gate formats url hCT = true) := by
    rintro ⟨h1, h2⟩
    exact h2 (hfmt h1)
  simp only [wic_attempt]
  rw [if_neg hc1, if_neg hc2]
  exact ⟨rfl, List.mem_cons_self _ _⟩

/-- Witness for the amended C4 theorem at the concrete failing download. -/
theorem io_failure_leaves_partial_file_witness :
    (wic_attempt "out" "https://x.test/photo.jpg" none c4resp 0 0 0 []).1 = .ioErr ∧
    (wic_save_path [] "out" (wic_resolve_filename "https://x.test/photo.jpg" none 0 0 0
        (wic_resolve_extension none "https://x.test/photo.jpg" c4resp.getContentType).1),
      ((c4resp.chunks.take 1).map List.length).sum) ∈
      (wic_attempt "out" "https://x.test/photo.jpg" none c4resp 0 0 0 []).2.1 :=
  io_failure_leaves_partial_file "out" "https://x.test/photo.jpg" none c4resp 0 0 0 [] 1
    (by decide) (fun h => by exact absurd h (by decide)) rfl

/-! ### The dual format check (claim C5) -/

/-- Response serving `image/webp` for a `.png` URL. -/
def c5resp : HttpResp :=
  { headContentType := "image/webp", getContentType := "image/webp",
    disposition := none, chunks := [[1, 2, 3]], failAfter := none }

/-- C5: with a configured format filter, an asset whose declared content
type is an image is accepted whenever either the URL's extension or the
content type matches the allowed set (the attempt completes with the
resolved save path); concretely, with filter `{png}` and content-type
`image/webp` on a URL ending in `.png`, the asset is downloaded, saved as
`photo.png` (the URL extension wins), and the format-mismatch warning is
emitted. -/
theorem dual_format_check
    (saveDir url : String) (fmts : List String) (resp : HttpResp)
    (urlHash ts rnd : Nat) (fs : List (String × Nat))
    (hct : wic_content_type_ok resp.headContentType = true)
    (hmatch : url_format_matched fmts url = true ∨
      content_format_matched fmts (strLower resp.headContentType) = true)
    (hfail : resp.failAfter = none) :
    ((wic_attempt saveDir url (some fmts) resp urlHash ts rnd fs).1 =
      .done (some (wic_save_path fs saveDir
        (wic_resolve_filename url resp.disposition urlHash ts rnd
          (wic_resolve_extension (some fmts) url resp.getContentType).1)))) ∧
    (wic_download_image "out" "https://x.test/photo.png" (some ["png"]) c5resp 0 0 0 [] =
        (some "out/photo.png", [("out/photo.png", 3)]) ∧
      (wic_attempt "out" "https://x.test/photo.png" (some ["png"]) c5resp 0 0 0 []).2.2
        = true) := by
  obtain ⟨hCT, gCT, disp, chunks, fAfter⟩ := resp
  simp only at hct hmatch hfail ⊢
  subst hfail
  have hc1 : ¬¬ (wic_content_type_ok hCT = true) := fun hh => hh hct
  have hgate : wic_format_gate (some fmts) url hCT = true := by
    simp only [wic_format_gate, Bool.or_eq_true]
    rcases hmatch with h | h
    · right; left; simpa using h
    · right; right; simpa using h
  have hc2 : ¬ (truthyFormats (some fmts) = true ∧
      ¬ wic_format_gate (some fmts) url hCT = true) := by
    rintro ⟨_, h2⟩
    exact h2 hgate
  refine ⟨?_, by decide, by decide⟩
  simp only [wic_attempt]
  rw [if_neg hc1, if_neg hc2]

/-- Witness for C5 at the concrete webp-for-png response. -/
theorem dual_format_check_witness :
    (wic_attempt "out" "https://x.test/photo.png" (some ["png"]) c5resp 0 0 0 []).1 =
      .done (some (wic_save_path [] "out"
        (wic_resolve_filename "https://x.test/photo.png" none 0 0 0
          (wic_resolve_extension (some ["png"]) "https://x.test/photo.png"
            c5resp.getContentType).1))) :=
  (dual_format_check "out" "https://x.test/photo.png" ["png"] c5resp 0 0 0 []
    (by decide) (Or.inl (by decide)) rfl).1

end ImageScraperTools
